import Mathlib

/-!
Shallow embedding of the realtime transcription pipeline in
`mic-recog/mic_stream.py`, together with proofs of the quantified
properties stated in the specification.

Modelling conventions:
* audio samples are opaque to the segmentation code, so a sample is
  modelled as an `Int` token (the segmenters only move samples around);
* Python floats that carry wall-clock times or second-durations are
  modelled as exact rationals `ℚ`;
* Python strings are modelled as `List Char` (`Txt`), so that
  `str.strip` and substring tests are executable;
* the Silero VAD model and the Whisper decoder are external oracles:
  a VAD run is driven by a trace of (frame, event) pairs, a decode by
  the text the oracle returns.
-/

namespace MicStream

/-- Python text, modelled as a list of characters. -/
abbrev Txt := List Char

/-- Computes `int(samplerate * seconds)` as in `mic_stream.py` (the
argument is nonnegative in every configuration the program accepts, so
`int` truncation coincides with the floor). -/
def samplesOf (samplerate : Nat) (seconds : ℚ) : Nat :=
  (⌊(samplerate : ℚ) * seconds⌋).toNat

/-- The fixed-window segmentation loop of `main` (mic_stream.py lines
801-811).  Each incoming block is appended to the buffer; whenever the
buffer holds at least `c = chunk_samples` samples the prefix of length
`c` is emitted and `c - o` samples (`o = overlap_samples`) are dropped
from the front (`buffer = buffer[chunk_samples - overlap_samples:]`).
`pos` counts the samples dropped from the front so far, i.e. the
stream position of the buffer head; each emitted chunk is paired with
the stream position of its first sample. -/
def runChunk (c o : Nat) : List (List Int) → List Int → Nat → List (Nat × List Int)
  | [], _, _ => []
  | f :: fs, buf, pos =>
    let buf2 := buf ++ f
    if c ≤ buf2.length then
      (pos, buf2.take c) :: runChunk c o fs (buf2.drop (c - o)) (pos + (c - o))
    else
      runChunk c o fs buf2 pos

/-- The event the `VADIterator` oracle reports for one VAD frame:
nothing, a speech start, or a speech end. -/
inductive VadEvent where
  | silence
  | start
  | stop
deriving DecidableEq

/-- Static configuration of the VAD segmenter: `window_size_samples`
(512 at 16 kHz, 256 at 8 kHz), `pre_roll_frames`, `min_samples` and
`max_samples` (0 disables the forced cut), mic_stream.py lines 636-639. -/
structure VadCfg where
  window : Nat
  preRollFrames : Nat
  minSamples : Nat
  maxSamples : Nat
deriving DecidableEq

/-- Mutable state of the VAD segmenter: the pre-roll `ring`
(`deque(maxlen=pre_roll_frames)`), the active `speech_frames` list and
the `in_speech` flag (lines 641-644).  `flushed` records the segments
handed to the transcriber, in order. -/
structure VadState where
  ring : List (List Int)
  speechFrames : List (List Int)
  inSpeech : Bool
  flushed : List (List Int)
deriving DecidableEq

/-- Models `ring.append(frame)` on a `collections.deque` with
`maxlen = cap`: append, evicting the oldest entry when full. -/
def pushRing (cap : Nat) (ring : List (List Int)) (f : List Int) : List (List Int) :=
  (ring ++ [f]).drop (ring.length + 1 - cap)

/-- The last `n` elements of a list. -/
def takeLast (n : Nat) (l : List α) : List α :=
  l.drop (l.length - n)

/-- Models `flush_segment` (mic_stream.py lines 646-656): concatenate
`speech_frames` into one segment and reset `speech_frames`; if
`min_samples` is set and the segment is shorter, discard it, otherwise
transcribe it (recorded by appending it to `flushed`). -/
def flushSegment (cfg : VadCfg) (st : VadState) : VadState :=
  if st.speechFrames = [] then st
  else
    let segment := st.speechFrames.flatten
    let st1 := { st with speechFrames := [] }
    if 0 < cfg.minSamples ∧ segment.length < cfg.minSamples then st1
    else { st1 with flushed := st1.flushed ++ [segment] }

/-- The body of the per-frame loop in `process_vad` (mic_stream.py
lines 661-684), driven by the event the VAD oracle reports for this
frame.  In order: while idle the frame is appended to the pre-roll
ring; on a start event `speech_frames` is seeded from the ring (which
already contains the current frame), the ring is cleared and the frame
is appended; while speaking the frame is appended; an end event while
speaking flushes; finally, while speaking with `max_samples` set, a
segment reaching `max_samples` is force-flushed and the ring cleared. -/
def vadStep (cfg : VadCfg) (st : VadState) (frame : List Int) (ev : VadEvent) : VadState :=
  let st1 := if st.inSpeech = true then st
             else { st with ring := pushRing cfg.preRollFrames st.ring frame }
  let st2 :=
    if ev = VadEvent.start then
      { st1 with inSpeech := true, speechFrames := st1.ring ++ [frame], ring := [] }
    else if st1.inSpeech = true then
      { st1 with speechFrames := st1.speechFrames ++ [frame] }
    else st1
  let st3 :=
    if st2.inSpeech = true ∧ ev = VadEvent.stop then
      flushSegment cfg { st2 with inSpeech := false }
    else st2
  if st3.inSpeech = true ∧ 0 < cfg.maxSamples ∧
      cfg.maxSamples ≤ st3.speechFrames.length * cfg.window then
    { flushSegment cfg { st3 with inSpeech := false } with ring := [] }
  else st3

/-- The initial VAD segmenter state (lines 641-644). -/
def initVad : VadState :=
  { ring := [], speechFrames := [], inSpeech := false, flushed := [] }

/-- Run the VAD segmenter over a trace of window-sized frames paired
with the event the VAD oracle reports for each. -/
def vadRun (cfg : VadCfg) : List (List Int × VadEvent) → VadState → VadState
  | [], st => st
  | (f, e) :: rest, st => vadRun cfg rest (vadStep cfg st f e)

/-- The guarantee actually enjoyed by every segment the VAD segmenter
hands to the transcriber: it is at least `min_samples` long, and it is
either within one VAD frame of `max_samples` or a force-cut that fired
on the start frame itself, whose pre-roll seed is at most
`pre_roll_frames + 1` frames. -/
def SegOk (cfg : VadCfg) (seg : List Int) : Prop :=
  cfg.minSamples ≤ seg.length ∧
    (seg.length < cfg.maxSamples + cfg.window ∨
      seg.length ≤ (cfg.preRollFrames + 1) * cfg.window)

/-- The inductive invariant of the VAD segmenter (for configurations
with the forced cut enabled): ring and speech frames are window-sized,
the ring respects its capacity, an in-progress segment is strictly
below `max_samples`, and every flushed segment satisfies `SegOk`. -/
def VadInv (cfg : VadCfg) (st : VadState) : Prop :=
  (∀ fr ∈ st.ring, fr.length = cfg.window) ∧
  st.ring.length ≤ cfg.preRollFrames ∧
  (∀ fr ∈ st.speechFrames, fr.length = cfg.window) ∧
  (st.inSpeech = true → st.speechFrames.length * cfg.window < cfg.maxSamples) ∧
  (∀ seg ∈ st.flushed, SegOk cfg seg)

/-- Fuel-driven helper for `windowsOf`. -/
def windowsOfAux (w : Nat) : Nat → List Int → List (List Int)
  | 0, _ => []
  | _, [] => []
  | fuel + 1, l => l.take w :: windowsOfAux w fuel (l.drop w)

/-- Split a sample list into consecutive `w`-sized frames (used only
to state properties about which VAD frames make up a segment). -/
def windowsOf (w : Nat) (l : List Int) : List (List Int) :=
  windowsOfAux w l.length l

/-- Python `str.strip()` (whitespace trimmed from both ends). -/
def pyStrip (s : Txt) : Txt :=
  ((s.dropWhile Char.isWhitespace).reverse.dropWhile Char.isWhitespace).reverse

/-- Models `_is_excluded` (mic_stream.py lines 362-368): false when the
exclude list is empty or the stripped text is empty, otherwise
membership of the stripped text in the set of stripped excludes. -/
def isExcluded (text : Txt) (excludes : List Txt) : Bool :=
  if excludes = [] then false
  else
    let normalized := pyStrip text
    if normalized = [] then false
    else decide (normalized ∈ excludes.map pyStrip)

/-- The configuration that drives the emitter and the interim loop:
`args.interim`, whether a WebSocket sender is configured,
`args.interim_seconds`, `args.interim_window_seconds`,
`int(args.interim_min_seconds * samplerate)` and `args.exclude`. -/
structure EmitCfg where
  interimOn : Bool
  wsOn : Bool
  interimSeconds : ℚ
  interimWindowSeconds : ℚ
  interimMinSamples : Nat
  excludes : List Txt

/-- One outbound transcript record (the fields the claims are about). -/
structure TranscriptRec where
  isInterim : Bool
  seq : Nat
  tstamp : ℚ
  text : Txt
deriving DecidableEq

/-- The shared mutable state of `main` that `emit_final` and
`interim_loop` read and write (mic_stream.py lines 691-697), plus the
observable outputs: `stdoutLines` records the lines printed by
`emit_final`, `sent` the records handed to the WebSocket sender, and
`interimInFlight` whether the interim worker is between its
pre-decode checks and its post-decode emission. -/
structure EmitState where
  seq : Nat
  interimSeq : Nat
  suppressUntil : ℚ
  lastFinalText : Txt
  lastFinalTime : ℚ
  lastInterimText : Txt
  lastInterimLen : Nat
  interimInFlight : Bool
  stdoutLines : List Txt
  sent : List TranscriptRec

/-- The initial emitter state (lines 691-697). -/
def initEmit : EmitState :=
  { seq := 0, interimSeq := 0, suppressUntil := 0, lastFinalText := [], lastFinalTime := 0,
    lastInterimText := [], lastInterimLen := 0, interimInFlight := false,
    stdoutLines := [], sent := [] }

/-- Models `emit_final` (mic_stream.py lines 699-730), executed at wall time
`t`.  Empty or excluded text returns immediately.  Otherwise, with
interim mode on, the post-final suppression window is set to
`t + max(interim_seconds * 2, 1.2)` and the last-final data recorded
(the rolling buffer clear is not part of this state).  The text is
printed, and with a sender configured the final counter is bumped and
a record enqueued. -/
def emitFinal (cfg : EmitCfg) (st : EmitState) (t : ℚ) (text : Txt) : EmitState :=
  if text = [] ∨ isExcluded text cfg.excludes = true then st
  else
    let st1 :=
      if cfg.interimOn = true then
        { st with lastInterimText := [],
                  suppressUntil := t + max (cfg.interimSeconds * 2) (12 / 10),
                  lastFinalText := text, lastFinalTime := t }
      else st
    let st2 := { st1 with stdoutLines := st1.stdoutLines ++ [text] }
    if cfg.wsOn = true then
      { st2 with seq := st2.seq + 1,
                 sent := st2.sent ++ [{ isInterim := false, seq := st2.seq + 1,
                                        tstamp := t, text := text }] }
    else st2

/-- The pre-decode half of one `interim_loop` tick (mic_stream.py
lines 735-742), at wall time `t` with a rolling-buffer snapshot of
`audioLen` samples: skip when inside the suppression window or when
the snapshot is shorter than the minimum window, otherwise start a
decode (the decode itself is the oracle). -/
def interimTickStart (cfg : EmitCfg) (st : EmitState) (t : ℚ) (audioLen : Nat) : EmitState :=
  if st.interimInFlight = true then st
  else if t < st.suppressUntil then st
  else if audioLen < cfg.interimMinSamples then st
  else { st with interimInFlight := true }

/-- The post-decode half of one `interim_loop` tick (mic_stream.py
lines 745-773), at wall time `t` with the oracle's decoded `text`:
drop empty or excluded text; drop text that overlaps the last final
within `max(interim_window_seconds, 2.5)` seconds; otherwise render
(tracked only through `lastInterimLen`) and, when the text changed and
a sender is configured, bump the interim counter and enqueue a
record.  Note there is no post-decode suppression-window check. -/
def interimTickFinish (cfg : EmitCfg) (st : EmitState) (t : ℚ) (text : Txt) : EmitState :=
  if st.interimInFlight = false then st
  else
    let st0 := { st with interimInFlight := false }
    if text = [] ∨ isExcluded text cfg.excludes = true then st0
    else if ¬ st0.lastFinalText = [] ∧ t - st0.lastFinalTime < max cfg.interimWindowSeconds (5 / 2) ∧
        (List.IsInfix text st0.lastFinalText ∨ List.IsInfix st0.lastFinalText text) then st0
    else
      let st1 := { st0 with lastInterimLen := max st0.lastInterimLen text.length }
      if cfg.wsOn = true ∧ ¬ text = st0.lastInterimText then
        { st1 with lastInterimText := text, interimSeq := st1.interimSeq + 1,
                   sent := st1.sent ++ [{ isInterim := true, seq := st1.interimSeq + 1,
                                          tstamp := t, text := text }] }
      else st1

/-- One scheduled action of the concurrent system: `emit_final` run by
the main thread, or one of the two halves of an `interim_loop` tick
run by the interim worker.  A trace of actions is one interleaving of
the two threads. -/
inductive EmitAct where
  | finalAct (t : ℚ) (text : Txt)
  | interimStartAct (t : ℚ) (audioLen : Nat)
  | interimFinishAct (t : ℚ) (text : Txt)

/-- Run an interleaving of emitter and interim-worker actions. -/
def emitRun (cfg : EmitCfg) : List EmitAct → EmitState → EmitState
  | [], st => st
  | EmitAct.finalAct t x :: rest, st => emitRun cfg rest (emitFinal cfg st t x)
  | EmitAct.interimStartAct t n :: rest, st => emitRun cfg rest (interimTickStart cfg st t n)
  | EmitAct.interimFinishAct t x :: rest, st => emitRun cfg rest (interimTickFinish cfg st t x)

/-- The configuration used in the suppression-window failing trace:
interim mode on, sender configured, `interim_seconds = 0.5`,
`interim_window_seconds = 2.0`, minimum window disabled, no excludes. -/
def c4Cfg : EmitCfg :=
  { interimOn := true, wsOn := true, interimSeconds := 1 / 2,
    interimWindowSeconds := 2, interimMinSamples := 0, excludes := [] }

/-- The failing interleaving: an interim decode starts at t = 10 s
(outside any suppression window), the final "alpha" is committed at
t = 10.1 s, and the in-flight decode finishes at t = 10.2 s with text
"x". -/
def c4Trace : List EmitAct :=
  [EmitAct.interimStartAct 10 16000,
   EmitAct.finalAct (101 / 10) "alpha".toList,
   EmitAct.interimFinishAct (102 / 10) "x".toList]

/-- The per-kind sequence-number bookkeeping of the emitter: the
`seq` fields of the final records sent so far are exactly
`1, 2, ..., seq`, and those of the interim records are exactly
`1, 2, ..., interimSeq`. -/
def SeqInv (st : EmitState) : Prop :=
  ((st.sent.filter fun r => !r.isInterim).map TranscriptRec.seq =
      List.range' 1 st.seq) ∧
  ((st.sent.filter fun r => r.isInterim).map TranscriptRec.seq =
      List.range' 1 st.interimSeq)

/-- One audio-capture consumer/producer action: the realtime callback
enqueueing a frame, or the main loop dequeuing one. -/
inductive QAct where
  | enq (f : Nat)
  | deq
deriving DecidableEq

/-- The audio `callback` (mic_stream.py lines 605-614): when the queue
already holds at least `max_queue` frames, drop the oldest frame
(`q.get_nowait()`, a no-op when a racing consumer emptied the queue),
then enqueue the incoming frame. -/
def callbackStep (maxQueue : Nat) (q : List Nat) (f : Nat) : List Nat :=
  (if maxQueue ≤ q.length then q.tail else q) ++ [f]

/-- Run an interleaving of callback invocations and consumer
dequeues over the frame queue. -/
def queueRun (maxQueue : Nat) : List QAct → List Nat → List Nat
  | [], q => q
  | QAct.enq f :: rest, q => queueRun maxQueue rest (callbackStep maxQueue q f)
  | QAct.deq :: rest, q => queueRun maxQueue rest q.tail

/-- Models `np.clip(samples, -1.0, 1.0)` on one sample. -/
def clip1 (x : ℚ) : ℚ := max (-1) (min 1 x)

/-- Conversion toward zero, the semantics of numpy's cast to `int16`
(`.astype(np.int16)`) for in-range values. -/
def truncZ (q : ℚ) : ℤ := if 0 ≤ q then ⌊q⌋ else ⌈q⌉

/-- One sample of `_write_wav` (mic_stream.py lines 516-525): clip to
[-1, 1], scale by 32767, cast to int16. -/
def pcm16 (x : ℚ) : ℤ := truncZ (clip1 x * 32767)

/-- Little-endian two-byte encoding of an int16 value, as done by
`pcm.tobytes()` (two's complement). -/
def toLE16 (n : ℤ) : Nat × Nat :=
  ((n % 65536).toNat % 256, (n % 65536).toNat / 256)

/-- Decoding of a little-endian two's-complement int16, as a WAV
reader recovers each sample. -/
def fromLE16 (b : Nat × Nat) : ℤ :=
  if b.1 + 256 * b.2 < 32768 then (b.1 + 256 * b.2 : ℤ)
  else (b.1 + 256 * b.2 : ℤ) - 65536

/-- The full subprocess WAV round trip for one sample: clip, scale,
cast to int16, write as two little-endian bytes, read back and
normalize by 32767. -/
def readBack (x : ℚ) : ℚ := (fromLE16 (toLE16 (pcm16 x)) : ℚ) / 32767

/-- The outcome of one `subprocess.run` of the whisper.cpp binary: its
exit code, captured stdout/stderr, and the content of the `.txt`
output file when one was produced. -/
structure ProcResult where
  returncode : Int
  procStdout : Txt
  procStderr : Txt
  txt : Option Txt

/-- The diagnostic `_transcribe_whispercpp` prints on a non-zero exit
(mic_stream.py lines 558-566): a message embedding the command line
and the captured stdout and stderr. -/
def whispercppFailMsg (cmd : Txt) (r : ProcResult) : Txt :=
  "whisper.cpp failed.\ncommand: ".toList ++ cmd ++ "\nstdout:\n".toList ++ r.procStdout ++
    "\nstderr:\n".toList ++ r.procStderr

/-- Models `_transcribe_whispercpp` (mic_stream.py lines 527-572) as a
function of the subprocess outcome: empty audio returns "" silently;
a non-zero exit prints the diagnostic and returns ""; a missing `.txt`
prints a fixed message and returns ""; otherwise the stripped file
content is returned.  Result: (returned text, stderr lines printed). -/
def transcribeWhispercpp (audioLen : Nat) (cmd : Txt) (r : ProcResult) : Txt × List Txt :=
  if audioLen = 0 then ([], [])
  else if r.returncode ≠ 0 then ([], [whispercppFailMsg cmd r])
  else
    match r.txt with
    | none => ([], ["whisper.cpp did not produce a .txt output.".toList])
    | some s => (pyStrip s, [])

/-- A concrete failing subprocess outcome: non-zero exit with captured
stderr "boom" (the `.txt` was produced but is irrelevant). -/
def c9FailProc : ProcResult :=
  { returncode := 1, procStdout := [], procStderr := "boom".toList, txt := some "hi".toList }

/-- A concrete subprocess outcome with exit code 0 but no `.txt`
output, and captured stderr "boom". -/
def c9MissingProc : ProcResult :=
  { returncode := 0, procStdout := [], procStderr := "boom".toList, txt := none }

/-- Models `_resolve_whisper_device` (mic_stream.py lines 307-320), with the
torch import success and accelerator availability as oracles. -/
def resolveWhisperDevice (device : Txt) (torchAvailable hasMps hasCuda : Bool) : Txt :=
  if ¬ device = "auto".toList then device
  else if torchAvailable = false then "cpu".toList
  else if hasMps = true then "mps".toList
  else if hasCuda = true then "cuda".toList
  else "cpu".toList

/-- The effective fp16 setting of `main` (mic_stream.py lines
500-502): `fp16 = args.fp16`, overridden to `False` when the resolved
device is "cpu". -/
def effectiveFp16 (fp16Flag : Bool) (device : Txt) : Bool :=
  if device = "cpu".toList then false else fp16Flag

/-- The decoder arguments a transcription call passes to
`model.transcribe` (the fields the claims are about). -/
structure WhisperCall where
  fp16 : Bool
  language : Option Txt
  task : Txt
deriving DecidableEq

/-- The call `transcribe_final` makes (mic_stream.py lines 574-587),
whisper backend. -/
def finalCallArgs (fp16Flag : Bool) (device : Txt) (language : Option Txt)
    (task : Txt) : WhisperCall :=
  { fp16 := effectiveFp16 fp16Flag device, language := language, task := task }

/-- The call `transcribe_interim` makes (mic_stream.py lines 589-603),
whisper backend; it uses the same captured `fp16` value. -/
def interimCallArgs (fp16Flag : Bool) (device : Txt) (language : Option Txt)
    (task : Txt) : WhisperCall :=
  { fp16 := effectiveFp16 fp16Flag device, language := language, task := task }

/-! ## C1: fixed-window segmenter -/

/-- Characterization of `runChunk` relative to the virtual stream
`buf ++ fs.flatten` whose head sits at stream position `pos`: every
emitted chunk has length exactly `c` and is the `c`-sample slice of
the stream at its recorded position, and the recorded positions form
the arithmetic progression `pos, pos + (c-o), pos + 2(c-o), ...`. -/
theorem runChunk_spec (c o : Nat) :
    ∀ (fs : List (List Int)) (buf : List Int) (pos : Nat),
      (∀ p ∈ runChunk c o fs buf pos,
          (Prod.snd p).length = c ∧
          Prod.snd p = ((buf ++ fs.flatten).drop (Prod.fst p - pos)).take c ∧
          pos ≤ Prod.fst p) ∧
      (runChunk c o fs buf pos).map Prod.fst =
        (List.range (runChunk c o fs buf pos).length).map (fun i => pos + i * (c - o)) := by
  intro fs
  induction fs with
  | nil =>
    intro buf pos
    refine ⟨?_, ?_⟩
    · intro p hp; simp [runChunk] at hp
    · simp [runChunk]
  | cons f fs ih =>
    intro buf pos
    by_cases hc : c ≤ (buf ++ f).length
    · have hstream : (buf ++ f) ++ fs.flatten = buf ++ (f :: fs).flatten := by
        simp [List.flatten_cons]
      have hco : c - o ≤ (buf ++ f).length := le_trans (Nat.sub_le c o) hc
      obtain ⟨ih1, ih2⟩ := ih ((buf ++ f).drop (c - o)) (pos + (c - o))
      refine ⟨?_, ?_⟩
      · intro p hp
        simp only [runChunk, if_pos hc, List.mem_cons] at hp
        rcases hp with rfl | hp
        · refine ⟨?_, ?_, le_refl pos⟩
          · simp only [List.length_take]
            exact Nat.min_eq_left hc
          · simp only [Nat.sub_self, List.drop_zero, ← hstream,
              List.take_append_of_le_length hc]
        · obtain ⟨hl, he, hpos⟩ := ih1 p hp
          have hidx : (c - o) + (p.1 - (pos + (c - o))) = p.1 - pos := by omega
          refine ⟨hl, ?_, le_trans (Nat.le_add_right pos (c - o)) hpos⟩
          rw [he, ← List.drop_append_of_le_length hco, List.drop_drop, hidx, ← hstream]
      · simp only [runChunk, if_pos hc, List.map_cons, List.length_cons, ih2,
          List.range_succ_eq_map, List.map_map]
        rw [List.cons_eq_cons]
        refine ⟨by simp, ?_⟩
        apply List.map_congr_left
        intro i _
        simp only [Function.comp_apply, Nat.succ_eq_add_one, Nat.mul_succ, Nat.succ_mul,
          Nat.add_mul]
        omega
    · have hstream : (buf ++ f) ++ fs.flatten = buf ++ (f :: fs).flatten := by
        simp [List.flatten_cons]
      obtain ⟨ih1, ih2⟩ := ih (buf ++ f) pos
      refine ⟨?_, ?_⟩
      · intro p hp
        simp only [runChunk, if_neg hc] at hp
        obtain ⟨hl, he, hpos⟩ := ih1 p hp
        exact ⟨hl, by rwa [hstream] at he, hpos⟩
      · simpa only [runChunk, if_neg hc] using ih2

/-- C1 (confirmed).  For every configuration with
`overlap_seconds < chunk_seconds`, the fixed-window segmenter emits
chunks whose lengths are exactly `chunk_samples` and whose start
positions in the input stream advance by exactly
`chunk_samples - overlap_samples` between consecutive chunks: the
i-th emitted chunk starts at stream position
`i * (chunk_samples - overlap_samples)` and equals the
`chunk_samples`-sample slice of the input there. -/
theorem c1_fixed_window_segmenter (samplerate : Nat) (chunkSeconds overlapSeconds : ℚ)
    (hov : overlapSeconds < chunkSeconds) (frames : List (List Int)) :
    (∀ p ∈ runChunk (samplesOf samplerate chunkSeconds) (samplesOf samplerate overlapSeconds)
        frames [] 0,
        (Prod.snd p).length = samplesOf samplerate chunkSeconds ∧
        Prod.snd p = (frames.flatten.drop (Prod.fst p)).take (samplesOf samplerate chunkSeconds)) ∧
    (runChunk (samplesOf samplerate chunkSeconds) (samplesOf samplerate overlapSeconds)
        frames [] 0).map Prod.fst =
      (List.range (runChunk (samplesOf samplerate chunkSeconds)
          (samplesOf samplerate overlapSeconds) frames [] 0).length).map
        (fun i => i * (samplesOf samplerate chunkSeconds - samplesOf samplerate overlapSeconds)) := by
  obtain ⟨h1, h2⟩ := runChunk_spec (samplesOf samplerate chunkSeconds)
    (samplesOf samplerate overlapSeconds) frames [] 0
  refine ⟨?_, ?_⟩
  · intro p hp
    obtain ⟨hl, he, _⟩ := h1 p hp
    refine ⟨hl, ?_⟩
    simpa using he
  · rw [h2]
    apply List.map_congr_left
    intro i _
    simp

/-- Witness for C1: samplerate 4 Hz, chunk 1 s (4 samples), overlap
0.5 s (2 samples): feeding blocks [1,2,3], [4,5,6], [7,8] emits chunks
starting at stream positions 0 and 2. -/
theorem c1_fixed_window_segmenter_witness :
    ((1 : ℚ)/2 < 1) ∧
    samplesOf 4 1 = 4 ∧ samplesOf 4 (1/2) = 2 ∧
    (runChunk 4 2 [[1,2,3],[4,5,6],[7,8]] [] 0).map Prod.fst = [0, 2] ∧
    ((runChunk (samplesOf 4 1) (samplesOf 4 (1/2)) [[1,2,3],[4,5,6],[7,8]] [] 0).map Prod.fst =
      (List.range (runChunk (samplesOf 4 1) (samplesOf 4 (1/2))
          [[1,2,3],[4,5,6],[7,8]] [] 0).length).map
        (fun i => i * (samplesOf 4 1 - samplesOf 4 (1/2)))) := by
  refine ⟨by norm_num, ?_, ?_, by decide,
    (c1_fixed_window_segmenter 4 1 (1/2) (by norm_num) [[1,2,3],[4,5,6],[7,8]]).2⟩
  · unfold samplesOf; norm_num; decide
  · unfold samplesOf; norm_num; decide

/-! ## C2 and C3: VAD segmenter -/

theorem pushRing_length_le (cap : Nat) (ring : List (List Int)) (f : List Int) :
    (pushRing cap ring f).length ≤ cap := by
  simp only [pushRing, List.length_drop, List.length_append, List.length_singleton]
  omega

theorem pushRing_mem (cap : Nat) (ring : List (List Int)) (f : List Int) :
    ∀ fr ∈ pushRing cap ring f, fr ∈ ring ∨ fr = f := by
  intro fr hfr
  have h := List.mem_of_mem_drop hfr
  simpa using h

theorem flatten_length_const (w : Nat) (l : List (List Int))
    (h : ∀ fr ∈ l, fr.length = w) : l.flatten.length = l.length * w := by
  induction l with
  | nil => simp
  | cons a l ih =>
    simp only [List.flatten_cons, List.length_append, List.length_cons,
      h a (List.mem_cons_self a l), ih (fun fr hfr => h fr (List.mem_cons_of_mem a hfr)),
      Nat.succ_mul]
    omega

theorem flushSegment_speechFrames (cfg : VadCfg) (st : VadState) :
    (flushSegment cfg st).speechFrames = [] := by
  unfold flushSegment
  split
  · simpa using (by assumption : st.speechFrames = [])
  · dsimp only
    split <;> rfl

theorem flushSegment_ring (cfg : VadCfg) (st : VadState) :
    (flushSegment cfg st).ring = st.ring := by
  unfold flushSegment
  split
  · rfl
  · dsimp only
    split <;> rfl

theorem flushSegment_inSpeech (cfg : VadCfg) (st : VadState) :
    (flushSegment cfg st).inSpeech = st.inSpeech := by
  unfold flushSegment
  split
  · rfl
  · dsimp only
    split <;> rfl

theorem flushSegment_flushed_ok (cfg : VadCfg) (st : VadState)
    (hs : ∀ fr ∈ st.speechFrames, fr.length = cfg.window)
    (hb : st.speechFrames.length * cfg.window < cfg.maxSamples + cfg.window ∨
          st.speechFrames.length ≤ cfg.preRollFrames + 1)
    (hfl : ∀ seg ∈ st.flushed, SegOk cfg seg) :
    ∀ seg ∈ (flushSegment cfg st).flushed, SegOk cfg seg := by
  intro seg hseg
  unfold flushSegment at hseg
  by_cases h0 : st.speechFrames = []
  · rw [if_pos h0] at hseg
    exact hfl seg hseg
  · rw [if_neg h0] at hseg
    dsimp only at hseg
    have hlen : st.speechFrames.flatten.length = st.speechFrames.length * cfg.window :=
      flatten_length_const cfg.window st.speechFrames hs
    by_cases hmin : 0 < cfg.minSamples ∧ st.speechFrames.flatten.length < cfg.minSamples
    · rw [if_pos hmin] at hseg
      exact hfl seg hseg
    · rw [if_neg hmin] at hseg
      simp only [List.mem_append, List.mem_singleton] at hseg
      rcases hseg with hseg | rfl
      · exact hfl seg hseg
      · constructor
        · omega
        · rw [hlen]
          rcases hb with hb | hb
          · exact Or.inl hb
          · exact Or.inr (Nat.mul_le_mul_right cfg.window hb)

theorem vadStep_idle_silence (cfg : VadCfg) (st : VadState) (frame : List Int)
    (hsp : st.inSpeech = false) :
    vadStep cfg st frame VadEvent.silence =
      { ring := pushRing cfg.preRollFrames st.ring frame, speechFrames := st.speechFrames,
        inSpeech := false, flushed := st.flushed } := by
  simp [vadStep, hsp]

theorem vadStep_idle_stop (cfg : VadCfg) (st : VadState) (frame : List Int)
    (hsp : st.inSpeech = false) :
    vadStep cfg st frame VadEvent.stop =
      { ring := pushRing cfg.preRollFrames st.ring frame, speechFrames := st.speechFrames,
        inSpeech := false, flushed := st.flushed } := by
  simp [vadStep, hsp]

theorem vadStep_idle_start_noforce (cfg : VadCfg) (st : VadState) (frame : List Int)
    (hsp : st.inSpeech = false)
    (hnf : ¬ cfg.maxSamples ≤ ((pushRing cfg.preRollFrames st.ring frame).length + 1) * cfg.window) :
    vadStep cfg st frame VadEvent.start =
      { ring := [], speechFrames := pushRing cfg.preRollFrames st.ring frame ++ [frame],
        inSpeech := true, flushed := st.flushed } := by
  simp [vadStep, hsp, hnf]

theorem vadStep_idle_start_force (cfg : VadCfg) (st : VadState) (frame : List Int)
    (hsp : st.inSpeech = false) (hmax : 0 < cfg.maxSamples)
    (hforce : cfg.maxSamples ≤ ((pushRing cfg.preRollFrames st.ring frame).length + 1) * cfg.window) :
    vadStep cfg st frame VadEvent.start =
      { flushSegment cfg
          { ring := [], speechFrames := pushRing cfg.preRollFrames st.ring frame ++ [frame],
            inSpeech := false, flushed := st.flushed } with ring := [] } := by
  simp [vadStep, hsp, hmax, hforce]

theorem vadStep_speak_silence_noforce (cfg : VadCfg) (st : VadState) (frame : List Int)
    (hsp : st.inSpeech = true)
    (hnf : ¬ cfg.maxSamples ≤ (st.speechFrames.length + 1) * cfg.window) :
    vadStep cfg st frame VadEvent.silence =
      { ring := st.ring, speechFrames := st.speechFrames ++ [frame], inSpeech := true,
        flushed := st.flushed } := by
  simp [vadStep, hsp, hnf]

theorem vadStep_speak_silence_force (cfg : VadCfg) (st : VadState) (frame : List Int)
    (hsp : st.inSpeech = true) (hmax : 0 < cfg.maxSamples)
    (hforce : cfg.maxSamples ≤ (st.speechFrames.length + 1) * cfg.window) :
    vadStep cfg st frame VadEvent.silence =
      { flushSegment cfg
          { ring := st.ring, speechFrames := st.speechFrames ++ [frame], inSpeech := false,
            flushed := st.flushed } with ring := [] } := by
  simp [vadStep, hsp, hmax, hforce]

theorem vadStep_speak_stop (cfg : VadCfg) (st : VadState) (frame : List Int)
    (hsp : st.inSpeech = true) :
    vadStep cfg st frame VadEvent.stop =
      flushSegment cfg
        { ring := st.ring, speechFrames := st.speechFrames ++ [frame], inSpeech := false,
          flushed := st.flushed } := by
  simp [vadStep, hsp, flushSegment_inSpeech]

theorem vadStep_speak_start_noforce (cfg : VadCfg) (st : VadState) (frame : List Int)
    (hsp : st.inSpeech = true)
    (hnf : ¬ cfg.maxSamples ≤ (st.ring.length + 1) * cfg.window) :
    vadStep cfg st frame VadEvent.start =
      { ring := [], speechFrames := st.ring ++ [frame], inSpeech := true,
        flushed := st.flushed } := by
  simp [vadStep, hsp, hnf]

theorem vadStep_speak_start_force (cfg : VadCfg) (st : VadState) (frame : List Int)
    (hsp : st.inSpeech = true) (hmax : 0 < cfg.maxSamples)
    (hforce : cfg.maxSamples ≤ (st.ring.length + 1) * cfg.window) :
    vadStep cfg st frame VadEvent.start =
      { flushSegment cfg
          { ring := [], speechFrames := st.ring ++ [frame], inSpeech := false,
            flushed := st.flushed } with ring := [] } := by
  simp [vadStep, hsp, hmax, hforce]

/-- The invariant components of a state produced by `flushSegment` on
a no-longer-speaking state. -/
theorem vadInv_flush (cfg : VadCfg) (Y : VadState) (hY : Y.inSpeech = false)
    (hr : ∀ fr ∈ Y.ring, fr.length = cfg.window) (hrc : Y.ring.length ≤ cfg.preRollFrames)
    (hs : ∀ fr ∈ Y.speechFrames, fr.length = cfg.window)
    (hb : Y.speechFrames.length * cfg.window < cfg.maxSamples + cfg.window ∨
          Y.speechFrames.length ≤ cfg.preRollFrames + 1)
    (hfl : ∀ seg ∈ Y.flushed, SegOk cfg seg) :
    VadInv cfg (flushSegment cfg Y) := by
  refine ⟨?_, ?_, ?_, ?_, ?_⟩
  · rw [flushSegment_ring]
    exact hr
  · rw [flushSegment_ring]
    exact hrc
  · rw [flushSegment_speechFrames]
    simp
  · rw [flushSegment_inSpeech, hY]
    simp
  · exact flushSegment_flushed_ok cfg Y hs hb hfl

/-- The invariant components of a force-flush result (flush on a
no-longer-speaking state, then clear the ring). -/
theorem vadInv_flush_clear (cfg : VadCfg) (Y : VadState) (hY : Y.inSpeech = false)
    (hs : ∀ fr ∈ Y.speechFrames, fr.length = cfg.window)
    (hb : Y.speechFrames.length * cfg.window < cfg.maxSamples + cfg.window ∨
          Y.speechFrames.length ≤ cfg.preRollFrames + 1)
    (hfl : ∀ seg ∈ Y.flushed, SegOk cfg seg) :
    VadInv cfg { flushSegment cfg Y with ring := [] } := by
  refine ⟨by simp, by simp, ?_, ?_, ?_⟩
  · intro fr hfr
    rw [show ({ flushSegment cfg Y with ring := [] } : VadState).speechFrames =
        ([] : List (List Int)) from flushSegment_speechFrames cfg Y] at hfr
    cases hfr
  · intro habs
    rw [show ({ flushSegment cfg Y with ring := [] } : VadState).inSpeech = Y.inSpeech from
        flushSegment_inSpeech cfg Y, hY] at habs
    cases habs
  · intro seg hseg
    exact flushSegment_flushed_ok cfg Y hs hb hfl seg hseg

/-- One step of the VAD segmenter preserves the inductive invariant
(for window-sized frames, with the forced cut enabled). -/
theorem vadStep_inv (cfg : VadCfg) (hmax : 0 < cfg.maxSamples) (st : VadState)
    (frame : List Int) (ev : VadEvent) (hf : frame.length = cfg.window)
    (h : VadInv cfg st) : VadInv cfg (vadStep cfg st frame ev) := by
  obtain ⟨hr, hrc, hs, hins, hfl⟩ := h
  have hr1 : ∀ fr ∈ pushRing cfg.preRollFrames st.ring frame, fr.length = cfg.window := by
    intro fr hfr
    rcases pushRing_mem _ _ _ fr hfr with hm | rfl
    · exact hr fr hm
    · exact hf
  have hseed : ∀ fr ∈ pushRing cfg.preRollFrames st.ring frame ++ [frame],
      fr.length = cfg.window := by
    intro fr hfr
    rcases List.mem_append.1 hfr with hm | hm
    · exact hr1 fr hm
    · rw [List.eq_of_mem_singleton hm]
      exact hf
  have hspeech1 : ∀ fr ∈ st.speechFrames ++ [frame], fr.length = cfg.window := by
    intro fr hfr
    rcases List.mem_append.1 hfr with hm | hm
    · exact hs fr hm
    · rw [List.eq_of_mem_singleton hm]
      exact hf
  have hring1 : ∀ fr ∈ st.ring ++ [frame], fr.length = cfg.window := by
    intro fr hfr
    rcases List.mem_append.1 hfr with hm | hm
    · exact hr fr hm
    · rw [List.eq_of_mem_singleton hm]
      exact hf
  cases hsp : st.inSpeech with
  | false =>
    cases ev with
    | silence =>
      rw [vadStep_idle_silence cfg st frame hsp]
      exact ⟨hr1, pushRing_length_le _ _ _, hs, by simp, hfl⟩
    | stop =>
      rw [vadStep_idle_stop cfg st frame hsp]
      exact ⟨hr1, pushRing_length_le _ _ _, hs, by simp, hfl⟩
    | start =>
      by_cases hforce :
          cfg.maxSamples ≤ ((pushRing cfg.preRollFrames st.ring frame).length + 1) * cfg.window
      · rw [vadStep_idle_start_force cfg st frame hsp hmax hforce]
        refine vadInv_flush_clear cfg _ rfl hseed ?_ hfl
        refine Or.inr ?_
        have := pushRing_length_le cfg.preRollFrames st.ring frame
        simp only [List.length_append, List.length_singleton]
        omega
      · rw [vadStep_idle_start_noforce cfg st frame hsp hforce]
        refine ⟨by simp, by simp, hseed, ?_, hfl⟩
        intro _
        simp only [List.length_append, List.length_singleton]
        omega
  | true =>
    have hbound := hins hsp
    cases ev with
    | silence =>
      by_cases hforce : cfg.maxSamples ≤ (st.speechFrames.length + 1) * cfg.window
      · rw [vadStep_speak_silence_force cfg st frame hsp hmax hforce]
        refine vadInv_flush_clear cfg _ rfl hspeech1 ?_ hfl
        refine Or.inl ?_
        simp only [List.length_append, List.length_singleton, Nat.succ_mul, Nat.add_mul,
          Nat.one_mul]
        omega
      · rw [vadStep_speak_silence_noforce cfg st frame hsp hforce]
        refine ⟨hr, hrc, hspeech1, ?_, hfl⟩
        intro _
        simp only [List.length_append, List.length_singleton]
        omega
    | stop =>
      rw [vadStep_speak_stop cfg st frame hsp]
      refine vadInv_flush cfg _ rfl hr hrc hspeech1 ?_ hfl
      refine Or.inl ?_
      simp only [List.length_append, List.length_singleton, Nat.succ_mul, Nat.add_mul,
        Nat.one_mul]
      omega
    | start =>
      by_cases hforce : cfg.maxSamples ≤ (st.ring.length + 1) * cfg.window
      · rw [vadStep_speak_start_force cfg st frame hsp hmax hforce]
        refine vadInv_flush_clear cfg _ rfl hring1 ?_ hfl
        refine Or.inr ?_
        simp only [List.length_append, List.length_singleton]
        omega
      · rw [vadStep_speak_start_noforce cfg st frame hsp hforce]
        refine ⟨by simp, by simp, hring1, ?_, hfl⟩
        intro _
        simp only [List.length_append, List.length_singleton]
        omega

/-- The invariant holds after any run from an invariant state. -/
theorem vadRun_inv (cfg : VadCfg) (hmax : 0 < cfg.maxSamples) :
    ∀ (trace : List (List Int × VadEvent)) (st : VadState),
      (∀ p ∈ trace, (Prod.fst p).length = cfg.window) →
      VadInv cfg st → VadInv cfg (vadRun cfg trace st) := by
  intro trace
  induction trace with
  | nil =>
    intro st _ h
    simpa [vadRun] using h
  | cons p rest ih =>
    intro st hlen h
    cases p with
    | mk f e =>
      simp only [vadRun]
      exact ih (vadStep cfg st f e) (fun q hq => hlen q (List.mem_cons_of_mem _ hq))
        (vadStep_inv cfg hmax st f e (hlen (f, e) (List.mem_cons_self _ _)) h)

/-- C2 (amended).  For every VAD trace of window-sized frames with the
forced cut enabled, every flushed (transcribed) segment has length at
least `min_samples`, and its length is either within one VAD frame of
`max_samples` (strictly below `max_samples + window_size_samples`) or
the segment is a force-cut that fired on the start frame itself, whose
pre-roll seed is bounded by `(pre_roll_frames + 1) * window_size_samples`
— the original claim's bound fails only in that seeded case, see
`c2_counterexample`. -/
theorem c2_vad_segment_bounds (cfg : VadCfg) (trace : List (List Int × VadEvent))
    (hmax : 0 < cfg.maxSamples)
    (hlen : ∀ p ∈ trace, (Prod.fst p).length = cfg.window) :
    ∀ seg ∈ (vadRun cfg trace initVad).flushed,
      cfg.minSamples ≤ seg.length ∧
        (seg.length < cfg.maxSamples + cfg.window ∨
          seg.length ≤ (cfg.preRollFrames + 1) * cfg.window) := by
  have hinit : VadInv cfg initVad :=
    ⟨by simp [initVad], by simp [initVad], by simp [initVad], by simp [initVad], by simp [initVad]⟩
  exact (vadRun_inv cfg hmax trace initVad hlen hinit).2.2.2.2

set_option maxRecDepth 100000 in
/-- C2 counterexample.  With `window_size_samples = 512`,
`pre_roll_frames = 2`, `min_samples = 0` and `max_samples = 512`, a
start event firing after two idle frames seeds the segment with the
pre-roll ring plus the (duplicated) start frame and the forced cut
flushes all 1536 samples at once — more than one VAD frame beyond
`max_samples` (512 + 512 = 1024), refuting the claim as stated. -/
theorem c2_counterexample :
    ((vadRun { window := 512, preRollFrames := 2, minSamples := 0, maxSamples := 512 }
        [(List.replicate 512 0, VadEvent.silence), (List.replicate 512 0, VadEvent.silence),
         (List.replicate 512 0, VadEvent.start)] initVad).flushed.map List.length = [1536]) ∧
    ¬ ((1536 : Nat) ≤ 512 + 512) :=
  ⟨by decide, by decide⟩

set_option maxRecDepth 100000 in
/-- Witness for C2 (amended): a segment of 1536 samples flushed by an
end event at `max_samples = 2048`, `window = 512`, `pre_roll = 1`. -/
theorem c2_vad_segment_bounds_witness :
    ((0 : Nat) < 2048) ∧
    ((0 : Nat) ≤ (List.replicate 1536 (0 : Int)).length ∧
      ((List.replicate 1536 (0 : Int)).length < 2048 + 512 ∨
        (List.replicate 1536 (0 : Int)).length ≤ (1 + 1) * 512)) :=
  ⟨by decide,
    c2_vad_segment_bounds { window := 512, preRollFrames := 1, minSamples := 0, maxSamples := 2048 }
      [(List.replicate 512 0, VadEvent.start), (List.replicate 512 0, VadEvent.stop)]
      (by decide) (by decide) (List.replicate 1536 (0 : Int)) (by decide)⟩

theorem vadRun_append (cfg : VadCfg) :
    ∀ (t1 t2 : List (List Int × VadEvent)) (st : VadState),
      vadRun cfg (t1 ++ t2) st = vadRun cfg t2 (vadRun cfg t1 st)
  | [], _, _ => rfl
  | (f, e) :: rest, t2, st => by
    simp only [List.cons_append, vadRun]
    exact vadRun_append cfg rest t2 (vadStep cfg st f e)

theorem pushRing_eq_takeLast (cap : Nat) (r : List (List Int)) (f : List Int) :
    pushRing cap r f = takeLast cap (r ++ [f]) := by
  unfold pushRing takeLast
  rw [List.length_append, List.length_singleton]

/-- Re-capping an already capped suffix before appending one element
is the same as capping at the end. -/
theorem takeLast_takeLast_append (cap : Nat) (l : List α) (f : α) :
    takeLast cap (takeLast cap l ++ [f]) = takeLast cap (l ++ [f]) := by
  unfold takeLast
  by_cases hc : l.length ≤ cap
  · have h0 : l.length - cap = 0 := by omega
    rw [h0, List.drop_zero]
  · have hlen : (l.drop (l.length - cap)).length = cap := by
      rw [List.length_drop]
      omega
    by_cases hcap : cap = 0
    · subst hcap
      simp
    · rw [List.length_append, hlen, List.length_append, List.length_singleton]
      have h1 : cap + 1 - cap = 1 := by omega
      have h2 : (1 : Nat) ≤ (l.drop (l.length - cap)).length := by omega
      rw [h1, List.drop_append_of_le_length h2, List.drop_drop,
        List.drop_append_of_le_length (by omega : l.length + 1 - cap ≤ l.length)]
      congr 2
      omega

/-- While idle (silence events only), the pre-roll ring is exactly the
last `pre_roll_frames` frames of the audio seen, and nothing else in
the state changes. -/
theorem vadRun_idle_ring (cfg : VadCfg) (pre : List (List Int)) :
    ∀ (st : VadState), st.inSpeech = false → st.ring.length ≤ cfg.preRollFrames →
      vadRun cfg (pre.map (fun fr => (fr, VadEvent.silence))) st =
        { st with ring := takeLast cfg.preRollFrames (st.ring ++ pre) } := by
  induction pre using List.reverseRecOn with
  | nil =>
    intro st hsp hrc
    have h0 : st.ring.length - cfg.preRollFrames = 0 := by omega
    simp [vadRun, takeLast, h0]
  | append_singleton l f ih =>
    intro st hsp hrc
    rw [List.map_append, vadRun_append, ih st hsp hrc]
    simp only [List.map_cons, List.map_nil, vadRun]
    rw [vadStep_idle_silence cfg _ f (by simp [hsp])]
    rw [show ({ st with ring := takeLast cfg.preRollFrames (st.ring ++ l) } : VadState).ring =
      takeLast cfg.preRollFrames (st.ring ++ l) from rfl]
    rw [pushRing_eq_takeLast, takeLast_takeLast_append, ← List.append_assoc]
    simp [hsp]

/-- A variant of the start-transition equation for configurations with
the forced cut disabled (`max_samples = 0`). -/
theorem vadStep_idle_start_nomax (cfg : VadCfg) (st : VadState) (frame : List Int)
    (hsp : st.inSpeech = false) (hmax : cfg.maxSamples = 0) :
    vadStep cfg st frame VadEvent.start =
      { ring := [], speechFrames := pushRing cfg.preRollFrames st.ring frame ++ [frame],
        inSpeech := true, flushed := st.flushed } := by
  simp [vadStep, hsp, hmax]

/-- C3 (amended).  For a trace that idles over `pre`, then receives a
`StartEvent` on frame `f` and an `EndEvent` on frame `g` (with the
forced cut and the minimum-length check disabled), the flushed segment
is the pre-roll seed followed by `f` and then `g`, where the seed is
the last `pre_roll_frames` frames of `pre ++ [f]` — a suffix of the
audio seen up to and including the event frame.  In particular, for a
nonempty ring capacity the seed's last frame is the event frame `f`
itself (only the seed frames before it were captured strictly before
the event), and `f` then occurs again right after the seed: the event
frame appears twice, contrary to the original claim
(see `c3_counterexample`). -/
theorem c3_pre_roll_seed (cfg : VadCfg) (pre : List (List Int)) (f g : List Int)
    (hmax : cfg.maxSamples = 0) (hmin : cfg.minSamples = 0) :
    (vadRun cfg (pre.map (fun fr => (fr, VadEvent.silence)) ++
        [(f, VadEvent.start), (g, VadEvent.stop)]) initVad).flushed =
      [(takeLast cfg.preRollFrames (pre ++ [f])).flatten ++ f ++ g] ∧
    List.IsSuffix (takeLast cfg.preRollFrames (pre ++ [f])) (pre ++ [f]) ∧
    (0 < cfg.preRollFrames →
      takeLast cfg.preRollFrames (pre ++ [f]) = takeLast (cfg.preRollFrames - 1) pre ++ [f]) := by
  refine ⟨?_, ?_, ?_⟩
  · rw [vadRun_append, vadRun_idle_ring cfg pre initVad rfl (by simp [initVad])]
    simp only [vadRun]
    rw [vadStep_idle_start_nomax cfg _ f (by simp [initVad]) hmax]
    rw [show ({ initVad with
        ring := takeLast cfg.preRollFrames (initVad.ring ++ pre) } : VadState).ring =
      takeLast cfg.preRollFrames ([] ++ pre) from rfl]
    rw [vadStep_speak_stop cfg _ g (by rfl)]
    rw [pushRing_eq_takeLast, takeLast_takeLast_append]
    simp only [List.nil_append]
    unfold flushSegment
    rw [if_neg (by simp)]
    dsimp only
    rw [if_neg (by simp [hmin])]
    simp [List.flatten_append, List.append_assoc, initVad]
  · unfold takeLast
    exact List.drop_suffix _ _
  · intro hcap
    unfold takeLast
    rw [List.length_append, List.length_singleton,
      List.drop_append_of_le_length (by omega : pre.length + 1 - cfg.preRollFrames ≤ pre.length)]
    congr 2
    omega

set_option maxRecDepth 100000 in
/-- C3 counterexample.  With ring capacity 1 at `window = 256`: one
idle frame `a`, then a start event on frame `f` and an end event on
frame `g`.  The flushed segment splits into the VAD frames
`[f, f, g]`: the start-event frame `f` occurs twice (it enters the
pre-roll ring before the event is scored and is then appended again),
so the segment neither begins with audio captured strictly before the
event nor keeps the event frame unduplicated. -/
theorem c3_counterexample :
    1 < ((windowsOf 256 (((vadRun
        { window := 256, preRollFrames := 1, minSamples := 0, maxSamples := 0 }
        [(List.replicate 256 1, VadEvent.silence), (List.replicate 256 7, VadEvent.start),
         (List.replicate 256 9, VadEvent.stop)] initVad).flushed).headD [])).count
      (List.replicate 256 7)) := by
  decide

/-- Witness for C3 (amended) at ring capacity 2, pre-roll history
[[1], [2]], start frame [7], end frame [9]: the flushed segment is
[2, 7, 7, 9] — pre-roll frame [2], the event frame [7] twice, then
the end frame [9]. -/
theorem c3_pre_roll_seed_witness :
    ((vadRun { window := 256, preRollFrames := 2, minSamples := 0, maxSamples := 0 }
        ([[1], [2]].map (fun fr => (fr, VadEvent.silence)) ++
          [([7], VadEvent.start), ([9], VadEvent.stop)]) initVad).flushed =
      [(takeLast 2 ([[1], [2]] ++ [[7]])).flatten ++ [7] ++ [9]] ∧
    List.IsSuffix (takeLast 2 ([[(1 : Int)], [2]] ++ [[7]])) ([[(1 : Int)], [2]] ++ [[7]]) ∧
    takeLast 2 ([[(1 : Int)], [2]] ++ [[7]]) = takeLast 1 [[(1 : Int)], [2]] ++ [[7]] ∧
    (vadRun { window := 256, preRollFrames := 2, minSamples := 0, maxSamples := 0 }
        ([[1], [2]].map (fun fr => (fr, VadEvent.silence)) ++
          [([7], VadEvent.start), ([9], VadEvent.stop)]) initVad).flushed = [[2, 7, 7, 9]]) :=
  ⟨(c3_pre_roll_seed { window := 256, preRollFrames := 2, minSamples := 0, maxSamples := 0 }
      [[1], [2]] [7] [9] rfl rfl).1,
   (c3_pre_roll_seed { window := 256, preRollFrames := 2, minSamples := 0, maxSamples := 0 }
      [[1], [2]] [7] [9] rfl rfl).2.1,
   (c3_pre_roll_seed { window := 256, preRollFrames := 2, minSamples := 0, maxSamples := 0 }
      [[1], [2]] [7] [9] rfl rfl).2.2 (by decide),
   by decide⟩

/-! ## C5: capture frame queue -/

theorem callbackStep_length (maxQueue : Nat) (hm : 1 ≤ maxQueue) (q : List Nat) (f : Nat)
    (hq : q.length ≤ maxQueue) : (callbackStep maxQueue q f).length ≤ maxQueue := by
  unfold callbackStep
  by_cases hfull : maxQueue ≤ q.length
  · rw [if_pos hfull]
    simp only [List.length_append, List.length_tail, List.length_singleton]
    omega
  · rw [if_neg hfull]
    simp only [List.length_append, List.length_singleton]
    omega

theorem queueRun_length (maxQueue : Nat) (hm : 1 ≤ maxQueue) :
    ∀ (acts : List QAct) (q : List Nat), q.length ≤ maxQueue →
      (queueRun maxQueue acts q).length ≤ maxQueue := by
  intro acts
  induction acts with
  | nil =>
    intro q hq
    simpa [queueRun] using hq
  | cons a rest ih =>
    intro q hq
    cases a with
    | enq f =>
      simp only [queueRun]
      exact ih (callbackStep maxQueue q f) (callbackStep_length maxQueue hm q f hq)
    | deq =>
      simp only [queueRun]
      refine ih q.tail ?_
      simp only [List.length_tail]
      omega

/-- C5 (amended).  For every `max_queue ≥ 1` and every interleaving of
callback invocations and consumer dequeues starting from the empty
queue, the queue never holds more than `max_queue` frames; and
whenever the callback finds the queue at or above the bound, the
resulting queue is the old queue minus its oldest (front) element plus
the incoming frame appended at the back — the discarded frame is the
oldest, never the incoming one, which is always the newest element
afterwards.  (For `max_queue = 0` the bound fails, see
`c5_counterexample`: the callback still enqueues after the drop.) -/
theorem c5_queue_bound (maxQueue : Nat) (hm : 1 ≤ maxQueue) :
    (∀ acts : List QAct, (queueRun maxQueue acts []).length ≤ maxQueue) ∧
    (∀ (q : List Nat) (f : Nat), maxQueue ≤ q.length →
        callbackStep maxQueue q f = q.drop 1 ++ [f]) ∧
    (∀ (q : List Nat) (f : Nat), (callbackStep maxQueue q f).getLast? = some f) := by
  refine ⟨?_, ?_, ?_⟩
  · intro acts
    exact queueRun_length maxQueue hm acts [] (by simp)
  · intro q f hfull
    unfold callbackStep
    rw [if_pos hfull, List.drop_one]
  · intro q f
    unfold callbackStep
    exact List.getLast?_concat _

/-- C5 counterexample: with `max_queue = 0` a single callback leaves
one frame in the queue, exceeding the configured bound. -/
theorem c5_counterexample : ¬ ((queueRun 0 [QAct.enq 5] []).length ≤ 0) := by
  decide

/-- Witness for C5 (amended) at `max_queue = 2`: three enqueues and a
dequeue keep the queue within the bound; a full queue [1, 2] receiving
7 becomes [2, 7]. -/
theorem c5_queue_bound_witness :
    ((1 : Nat) ≤ 2) ∧
    (queueRun 2 [QAct.enq 1, QAct.enq 2, QAct.enq 3, QAct.deq] []).length ≤ 2 ∧
    ((2 : Nat) ≤ ([1, 2] : List Nat).length) ∧
    callbackStep 2 [1, 2] 7 = ([1, 2] : List Nat).drop 1 ++ [7] ∧
    (callbackStep 2 [1, 2] 7).getLast? = some 7 ∧
    callbackStep 2 [1, 2] 7 = [2, 7] :=
  ⟨by decide,
   (c5_queue_bound 2 (by decide)).1 [QAct.enq 1, QAct.enq 2, QAct.enq 3, QAct.deq],
   by decide,
   (c5_queue_bound 2 (by decide)).2.1 [1, 2] 7 (by decide),
   (c5_queue_bound 2 (by decide)).2.2 [1, 2] 7,
   by decide⟩

/-! ## C7: subprocess WAV round trip -/

theorem truncZ_abs_sub_le (q : ℚ) : |(truncZ q : ℚ) - q| ≤ 1 := by
  unfold truncZ
  by_cases h : 0 ≤ q
  · rw [if_pos h]
    have h1 : (⌊q⌋ : ℚ) ≤ q := Int.floor_le q
    have h2 : q - 1 < (⌊q⌋ : ℚ) := Int.sub_one_lt_floor q
    rw [abs_le]
    constructor <;> linarith
  · rw [if_neg h]
    have h1 : q ≤ (⌈q⌉ : ℚ) := Int.le_ceil q
    have h2 : (⌈q⌉ : ℚ) < q + 1 := Int.ceil_lt_add_one q
    rw [abs_le]
    constructor <;> linarith

theorem clip1_bounds (x : ℚ) : -1 ≤ clip1 x ∧ clip1 x ≤ 1 := by
  unfold clip1
  exact ⟨le_max_left _ _, max_le (by norm_num) (min_le_left 1 x)⟩

theorem pcm16_range (x : ℚ) : -32767 ≤ pcm16 x ∧ pcm16 x ≤ 32767 := by
  obtain ⟨hl, hu⟩ := clip1_bounds x
  unfold pcm16 truncZ
  by_cases h : 0 ≤ clip1 x * 32767
  · rw [if_pos h]
    constructor
    · have h0 : (0 : ℤ) ≤ ⌊clip1 x * 32767⌋ := Int.floor_nonneg.2 h
      omega
    · have h1 : ⌊clip1 x * 32767⌋ ≤ ⌊(32767 : ℚ)⌋ := Int.floor_le_floor (by linarith)
      have h2 : ⌊(32767 : ℚ)⌋ = 32767 := by norm_num
      omega
  · rw [if_neg h]
    constructor
    · have h1 : ⌈((-32767 : ℤ) : ℚ)⌉ ≤ ⌈clip1 x * 32767⌉ := Int.ceil_le_ceil (by push_cast; linarith)
      have h2 : ⌈((-32767 : ℤ) : ℚ)⌉ = -32767 := Int.ceil_intCast _
      omega
    · have h0 : ⌈clip1 x * 32767⌉ ≤ ⌈(0 : ℚ)⌉ := Int.ceil_le_ceil (le_of_not_le h)
      rw [Int.ceil_zero] at h0
      omega

theorem fromLE16_toLE16 (n : ℤ) (h1 : -32768 ≤ n) (h2 : n < 32768) :
    fromLE16 (toLE16 n) = n := by
  unfold fromLE16 toLE16
  dsimp only
  split <;> omega

theorem readBack_close (x : ℚ) : |readBack x - clip1 x| ≤ 1 / 32767 := by
  have hr := pcm16_range x
  have heq : fromLE16 (toLE16 (pcm16 x)) = pcm16 x := fromLE16_toLE16 _ (by omega) (by omega)
  unfold readBack
  rw [heq]
  have h32 : (0 : ℚ) < 32767 := by norm_num
  rw [show (pcm16 x : ℚ) / 32767 - clip1 x = ((pcm16 x : ℚ) - clip1 x * 32767) / 32767 by
    ring]
  rw [abs_div, abs_of_pos h32]
  exact (div_le_div_iff_of_pos_right h32).2 (truncZ_abs_sub_le (clip1 x * 32767))

/-- C7 (confirmed).  For every float32 sample buffer, writing it
through the subprocess WAV path (clip to [-1, 1], scale by 32767,
cast to int16, encode as little-endian two's-complement bytes) and
reading it back yields, for every sample, a value within 1/32767 of
the clipped original sample (read-back values normalized by 32767;
sample arithmetic modelled exactly over ℚ). -/
theorem c7_wav_roundtrip (buf : List ℚ) :
    ∀ x ∈ buf, |readBack x - clip1 x| ≤ 1 / 32767 :=
  fun x _ => readBack_close x

/-- Witness for C7 at the sample 1/3: the stored int16 is 10922 and
the read-back value 10922/32767 is within 1/32767 of 1/3. -/
theorem c7_wav_roundtrip_witness :
    ((1 : ℚ)/3 ∈ [(1 : ℚ)/3]) ∧ |readBack (1/3) - clip1 (1/3)| ≤ 1 / 32767 :=
  ⟨by norm_num, c7_wav_roundtrip [(1 : ℚ)/3] (1/3) (by norm_num)⟩

/-! ## C9: subprocess backend failure handling -/

/-- C9 (amended).  For every subprocess-backend call on nonempty audio
where the binary exits non-zero or produces no `.txt`, the call
returns the empty string rather than raising (the embedding is a total
function, so the pipeline continues with an empty text), and a
diagnostic line goes to stderr; when the exit code is non-zero that
diagnostic embeds the captured stderr (on the missing-`.txt` path the
diagnostic is a fixed message without it, see `c9_counterexample`). -/
theorem c9_whispercpp_failure (audioLen : Nat) (cmd : Txt) (r : ProcResult)
    (hn : 0 < audioLen) (hfail : r.returncode ≠ 0 ∨ r.txt = none) :
    (transcribeWhispercpp audioLen cmd r).1 = [] ∧
    (transcribeWhispercpp audioLen cmd r).2 ≠ [] ∧
    (r.returncode ≠ 0 →
      List.IsInfix r.procStderr (((transcribeWhispercpp audioLen cmd r).2).headD [])) := by
  unfold transcribeWhispercpp
  rw [if_neg (by omega : ¬ audioLen = 0)]
  by_cases hrc : r.returncode ≠ 0
  · rw [if_pos hrc]
    refine ⟨rfl, by simp, fun _ => ?_⟩
    simp only [List.headD_cons]
    exact (List.suffix_append _ _).isInfix
  · rw [if_neg hrc]
    rcases hfail with h | h
    · exact absurd h hrc
    · rw [h]
      exact ⟨rfl, by simp, fun hr0 => absurd hr0 hrc⟩

/-- C9 counterexample: exit code 0 with captured stderr "boom" but no
`.txt` produced — the call returns "" and prints a diagnostic, but
that diagnostic is the fixed missing-output message and does not
include the captured stderr, refuting the claim's parenthetical as
stated. -/
theorem c9_counterexample :
    (transcribeWhispercpp 160 [] c9MissingProc).1 = [] ∧
    (transcribeWhispercpp 160 [] c9MissingProc).2 =
      ["whisper.cpp did not produce a .txt output.".toList] ∧
    ¬ List.IsInfix "boom".toList
        (((transcribeWhispercpp 160 [] c9MissingProc).2).headD []) :=
  ⟨by decide, by decide, by decide⟩

/-- Witness for C9 (amended): a non-zero exit with stderr "boom"
returns "" and prints a diagnostic embedding "boom". -/
theorem c9_whispercpp_failure_witness :
    ((0 : Nat) < 160) ∧ ((1 : Int) ≠ 0 ∨ c9FailProc.txt = none) ∧
    (transcribeWhispercpp 160 [] c9FailProc).1 = [] ∧
    (transcribeWhispercpp 160 [] c9FailProc).2 ≠ [] ∧
    List.IsInfix c9FailProc.procStderr
      (((transcribeWhispercpp 160 [] c9FailProc).2).headD []) :=
  ⟨by decide, Or.inl (by decide),
   (c9_whispercpp_failure 160 [] c9FailProc (by decide) (Or.inl (by decide))).1,
   (c9_whispercpp_failure 160 [] c9FailProc (by decide) (Or.inl (by decide))).2.1,
   (c9_whispercpp_failure 160 [] c9FailProc (by decide) (Or.inl (by decide))).2.2 (by decide)⟩

/-! ## C10: fp16 forced off on cpu -/

/-- C10 (confirmed).  Whenever the whisper backend's device resolves
to "cpu" — whether forced by `--device cpu` or chosen by the auto
path — both `transcribe_final` and `transcribe_interim` call the model
with `fp16 = False`, regardless of the `--fp16` flag. -/
theorem c10_cpu_forces_fp16_off (deviceArg : Txt)
    (torchAvailable hasMps hasCuda fp16Flag : Bool) (language : Option Txt) (task : Txt)
    (hcpu : resolveWhisperDevice deviceArg torchAvailable hasMps hasCuda = "cpu".toList) :
    (finalCallArgs fp16Flag (resolveWhisperDevice deviceArg torchAvailable hasMps hasCuda)
        language task).fp16 = false ∧
    (interimCallArgs fp16Flag (resolveWhisperDevice deviceArg torchAvailable hasMps hasCuda)
        language task).fp16 = false := by
  rw [hcpu]
  unfold finalCallArgs interimCallArgs effectiveFp16
  simp

/-- Witness for C10: `--device cpu --fp16` still decodes with
`fp16 = False` on both the final and the interim path. -/
theorem c10_cpu_forces_fp16_off_witness :
    (resolveWhisperDevice "cpu".toList true true true = "cpu".toList) ∧
    ((finalCallArgs true (resolveWhisperDevice "cpu".toList true true true) none
        "transcribe".toList).fp16 = false ∧
     (interimCallArgs true (resolveWhisperDevice "cpu".toList true true true) none
        "transcribe".toList).fp16 = false) :=
  ⟨by decide,
   c10_cpu_forces_fp16_off "cpu".toList true true true true none "transcribe".toList (by decide)⟩

/-! ## C8: exclude list -/

theorem pyStrip_eq_rdropWhile (s : Txt) :
    pyStrip s = List.rdropWhile Char.isWhitespace (List.dropWhile Char.isWhitespace s) :=
  rfl

theorem dropWhile_self_of_isPrefix {p : Char → Bool} {l₁ l₂ : List Char}
    (h : List.IsPrefix l₁ l₂) (h2 : List.dropWhile p l₂ = l₂) :
    List.dropWhile p l₁ = l₁ := by
  cases l₁ with
  | nil => rfl
  | cons a t =>
    obtain ⟨r, hr⟩ := h
    subst hr
    by_cases hpa : p a
    · exfalso
      rw [List.cons_append, List.dropWhile_cons, if_pos hpa] at h2
      have hlen := congrArg List.length h2
      have hle : (List.dropWhile p (t ++ r)).length ≤ (t ++ r).length :=
        ((List.dropWhile_suffix p).sublist).length_le
      simp only [List.length_cons] at hlen
      omega
    · rw [List.dropWhile_cons, if_neg hpa]

/-- Python `str.strip()` is idempotent. -/
theorem pyStrip_idem (s : Txt) : pyStrip (pyStrip s) = pyStrip s := by
  rw [pyStrip_eq_rdropWhile, pyStrip_eq_rdropWhile]
  have hA : List.dropWhile Char.isWhitespace (List.dropWhile Char.isWhitespace s) =
      List.dropWhile Char.isWhitespace s :=
    List.dropWhile_idempotent _ _
  have hpre : List.IsPrefix
      (List.rdropWhile Char.isWhitespace (List.dropWhile Char.isWhitespace s))
      (List.dropWhile Char.isWhitespace s) :=
    List.rdropWhile_prefix _ _
  have hd : List.dropWhile Char.isWhitespace
      (List.rdropWhile Char.isWhitespace (List.dropWhile Char.isWhitespace s)) =
      List.rdropWhile Char.isWhitespace (List.dropWhile Char.isWhitespace s) :=
    dropWhile_self_of_isPrefix hpre hA
  rw [hd, List.rdropWhile_idempotent]

/-- The text the emitter receives from the subprocess backend is
already stripped (`_transcribe_whispercpp` returns
`f.read().strip()`, mic_stream.py line 572; the in-process backend
likewise returns `.strip()`ed text, line 587). -/
theorem transcribeWhispercpp_stripped (audioLen : Nat) (cmd : Txt) (r : ProcResult) :
    pyStrip (transcribeWhispercpp audioLen cmd r).1 =
      (transcribeWhispercpp audioLen cmd r).1 := by
  unfold transcribeWhispercpp
  split_ifs with h1 h2
  · rfl
  · rfl
  · cases r.txt with
    | none => rfl
    | some s => exact pyStrip_idem s

/-- C8 (confirmed).  For every segment whose trimmed transcribed text
appears in the configured excludes set, `emit_final` produces no
stdout line and enqueues no outbound record: it returns before any
side effect, leaving every piece of emitter state (`seq` counters,
suppression window, last-final data) unchanged.  The text
`emit_final` receives is always already stripped — both backends
return `.strip()`ed text (mic_stream.py lines 572 and 587) and the
call sites at lines 656 and 811 pass it through unchanged, see
`transcribeWhispercpp_stripped` — which the hypothesis
`pyStrip text = text` records.  Its trimmed text is then `text`
itself: either empty, dropped by the emptiness guard at line 701, or
nonempty and caught by `_is_excluded`; in both cases `emit_final`
returns the state untouched. -/
theorem c8_excluded_drop (cfg : EmitCfg) (st : EmitState) (t : ℚ) (text : Txt)
    (hstripped : pyStrip text = text)
    (hmem : pyStrip text ∈ cfg.excludes.map pyStrip) :
    emitFinal cfg st t text = st := by
  by_cases htext : text = []
  · unfold emitFinal
    rw [if_pos (Or.inl htext)]
  · have hne : pyStrip text ≠ [] := by
      rw [hstripped]
      exact htext
    have hexc : isExcluded text cfg.excludes = true := by
      unfold isExcluded
      have hnil : cfg.excludes ≠ [] := by
        intro h0
        rw [h0] at hmem
        simp at hmem
      rw [if_neg hnil]
      dsimp only
      rw [if_neg hne]
      exact decide_eq_true hmem
    unfold emitFinal
    rw [if_pos (Or.inr hexc)]

/-- Witness for C8: the stripped text "hello" with " hello " among
the configured excludes leaves the emitter state untouched. -/
theorem c8_excluded_drop_witness :
    (pyStrip "hello".toList = "hello".toList) ∧
    (pyStrip "hello".toList ∈ ([" hello ".toList] : List Txt).map pyStrip) ∧
    emitFinal
      { interimOn := true, wsOn := true, interimSeconds := 1 / 2,
        interimWindowSeconds := 2, interimMinSamples := 0,
        excludes := [" hello ".toList] } initEmit 5 "hello".toList = initEmit :=
  ⟨by decide, by decide,
   c8_excluded_drop
     { interimOn := true, wsOn := true, interimSeconds := 1 / 2,
       interimWindowSeconds := 2, interimMinSamples := 0,
       excludes := [" hello ".toList] } initEmit 5 "hello".toList (by decide) (by decide)⟩

/-! ## C6: per-kind sequence numbers -/

theorem range'_one_concat (n : Nat) :
    List.range' 1 (n + 1) = List.range' 1 n ++ [n + 1] := by
  rw [List.range'_concat]
  congr 1
  simp [Nat.add_comm]

theorem pairwise_lt_range1 : ∀ (n s : Nat),
    List.Pairwise (fun a b => a < b) (List.range' s n) := by
  intro n
  induction n with
  | zero =>
    intro s
    simp
  | succ k ih =>
    intro s
    rw [List.range'_succ]
    exact List.Pairwise.cons (fun b hb => (List.mem_range'_1.1 hb).1) (ih (s + 1))

theorem emitFinal_seqInv (cfg : EmitCfg) (st : EmitState) (t : ℚ) (text : Txt)
    (h : SeqInv st) : SeqInv (emitFinal cfg st t text) := by
  obtain ⟨h1, h2⟩ := h
  unfold emitFinal
  dsimp only
  split_ifs with hc hw hi hi2
  · exact ⟨h1, h2⟩
  · refine ⟨?_, ?_⟩
    · show ((st.sent ++
          [({ isInterim := false, seq := st.seq + 1, tstamp := t, text := text } :
            TranscriptRec)]).filter
            fun r => !r.isInterim).map TranscriptRec.seq = List.range' 1 (st.seq + 1)
      rw [List.filter_append, List.map_append, h1, range'_one_concat]
      simp
    · show ((st.sent ++
          [({ isInterim := false, seq := st.seq + 1, tstamp := t, text := text } :
            TranscriptRec)]).filter
            fun r => r.isInterim).map TranscriptRec.seq = List.range' 1 st.interimSeq
      rw [List.filter_append, List.map_append, h2]
      simp
  · refine ⟨?_, ?_⟩
    · show ((st.sent ++
          [({ isInterim := false, seq := st.seq + 1, tstamp := t, text := text } :
            TranscriptRec)]).filter
            fun r => !r.isInterim).map TranscriptRec.seq = List.range' 1 (st.seq + 1)
      rw [List.filter_append, List.map_append, h1, range'_one_concat]
      simp
    · show ((st.sent ++
          [({ isInterim := false, seq := st.seq + 1, tstamp := t, text := text } :
            TranscriptRec)]).filter
            fun r => r.isInterim).map TranscriptRec.seq = List.range' 1 st.interimSeq
      rw [List.filter_append, List.map_append, h2]
      simp
  · exact ⟨h1, h2⟩
  · exact ⟨h1, h2⟩

theorem interimTickStart_seqInv (cfg : EmitCfg) (st : EmitState) (t : ℚ) (n : Nat)
    (h : SeqInv st) : SeqInv (interimTickStart cfg st t n) := by
  unfold interimTickStart
  split_ifs <;> exact h

theorem interimTickFinish_seqInv (cfg : EmitCfg) (st : EmitState) (t : ℚ) (text : Txt)
    (h : SeqInv st) : SeqInv (interimTickFinish cfg st t text) := by
  obtain ⟨h1, h2⟩ := h
  unfold interimTickFinish
  dsimp only
  split_ifs with hfl hc hd hw
  · exact ⟨h1, h2⟩
  · exact ⟨h1, h2⟩
  · exact ⟨h1, h2⟩
  · refine ⟨?_, ?_⟩
    · show ((st.sent ++
          [({ isInterim := true, seq := st.interimSeq + 1, tstamp := t, text := text } :
            TranscriptRec)]).filter
            fun r => !r.isInterim).map TranscriptRec.seq = List.range' 1 st.seq
      rw [List.filter_append, List.map_append, h1]
      simp
    · show ((st.sent ++
          [({ isInterim := true, seq := st.interimSeq + 1, tstamp := t, text := text } :
            TranscriptRec)]).filter
            fun r => r.isInterim).map TranscriptRec.seq = List.range' 1 (st.interimSeq + 1)
      rw [List.filter_append, List.map_append, h2, range'_one_concat]
      simp
  · exact ⟨h1, h2⟩

theorem emitRun_seqInv (cfg : EmitCfg) :
    ∀ (acts : List EmitAct) (st : EmitState), SeqInv st → SeqInv (emitRun cfg acts st)
  | [], _, h => h
  | EmitAct.finalAct t x :: rest, st, h =>
    emitRun_seqInv cfg rest _ (emitFinal_seqInv cfg st t x h)
  | EmitAct.interimStartAct t n :: rest, st, h =>
    emitRun_seqInv cfg rest _ (interimTickStart_seqInv cfg st t n h)
  | EmitAct.interimFinishAct t x :: rest, st, h =>
    emitRun_seqInv cfg rest _ (interimTickFinish_seqInv cfg st t x h)

/-- C6 (confirmed).  Over every run (any interleaving of finals and
interim ticks, any configuration), the `seq` fields of the outbound
final records are strictly increasing, and so are the `seq` fields of
the outbound interim records — the two counters are independent: each
kind's sequence is exactly 1, 2, ..., k for its own count, regardless
of how the other kind's emissions interleave. -/
theorem c6_seq_strict_mono (cfg : EmitCfg) (acts : List EmitAct) :
    List.Pairwise (fun a b => a < b)
      (((emitRun cfg acts initEmit).sent.filter fun r => !r.isInterim).map
        TranscriptRec.seq) ∧
    List.Pairwise (fun a b => a < b)
      (((emitRun cfg acts initEmit).sent.filter fun r => r.isInterim).map
        TranscriptRec.seq) := by
  have h := emitRun_seqInv cfg acts initEmit ⟨by simp [initEmit], by simp [initEmit]⟩
  refine ⟨?_, ?_⟩
  · rw [h.1]
    exact pairwise_lt_range1 _ _
  · rw [h.2]
    exact pairwise_lt_range1 _ _

/-! ## C4: post-final interim suppression -/

/-- C4 (code bug witnessed on a concrete interleaving).  The interim
worker checks the suppression window only before decoding
(mic_stream.py line 737) and never again after the decode, so a
decode in flight when a final is committed is still emitted.  On the
trace `c4Trace` — decode starts at t = 10 s, final at t = 10.1 s,
decode finishes at t = 10.2 s — an interim record is sent with
timestamp 10.2 s, strictly inside the suppression window
[10.1, 10.1 + max(interim_seconds * 2, 1.2)) = [10.1, 11.3), exactly
what the claim forbids. -/
theorem c4_inflight_interim_emitted :
    (((emitRun c4Cfg c4Trace initEmit).sent.filter fun r => r.isInterim).map
        TranscriptRec.tstamp = [102 / 10]) ∧
    (((emitRun c4Cfg c4Trace initEmit).sent.filter fun r => !r.isInterim).map
        TranscriptRec.tstamp = [101 / 10]) ∧
    (101 / 10 : ℚ) ≤ 102 / 10 ∧
    (102 / 10 : ℚ) < 101 / 10 + max ((1 / 2 : ℚ) * 2) (12 / 10) := by
  have hmax : max ((1 / 2 : ℚ) * 2) (12 / 10) = 12 / 10 := max_eq_right (by norm_num)
  have h1 : interimTickStart c4Cfg initEmit 10 16000 =
      { seq := 0, interimSeq := 0, suppressUntil := 0, lastFinalText := [],
        lastFinalTime := 0, lastInterimText := [], lastInterimLen := 0,
        interimInFlight := true, stdoutLines := [], sent := [] } := by
    unfold interimTickStart initEmit c4Cfg
    norm_num
  have h2 : emitFinal c4Cfg
      { seq := 0, interimSeq := 0, suppressUntil := 0, lastFinalText := [],
        lastFinalTime := 0, lastInterimText := [], lastInterimLen := 0,
        interimInFlight := true, stdoutLines := [], sent := [] } (101 / 10) "alpha".toList =
      { seq := 1, interimSeq := 0, suppressUntil := 113 / 10,
        lastFinalText := "alpha".toList, lastFinalTime := 101 / 10, lastInterimText := [],
        lastInterimLen := 0, interimInFlight := true, stdoutLines := ["alpha".toList],
        sent := [{ isInterim := false, seq := 1, tstamp := 101 / 10,
                   text := "alpha".toList }] } := by
    unfold emitFinal c4Cfg
    rw [if_neg (by decide)]
    dsimp only
    norm_num [hmax]
  have h3 : interimTickFinish c4Cfg
      { seq := 1, interimSeq := 0, suppressUntil := 113 / 10,
        lastFinalText := "alpha".toList, lastFinalTime := 101 / 10, lastInterimText := [],
        lastInterimLen := 0, interimInFlight := true, stdoutLines := ["alpha".toList],
        sent := [{ isInterim := false, seq := 1, tstamp := 101 / 10,
                   text := "alpha".toList }] } (102 / 10) "x".toList =
      { seq := 1, interimSeq := 1, suppressUntil := 113 / 10,
        lastFinalText := "alpha".toList, lastFinalTime := 101 / 10,
        lastInterimText := "x".toList, lastInterimLen := 1, interimInFlight := false,
        stdoutLines := ["alpha".toList],
        sent := [{ isInterim := false, seq := 1, tstamp := 101 / 10,
                   text := "alpha".toList },
                 { isInterim := true, seq := 1, tstamp := 102 / 10,
                   text := "x".toList }] } := by
    unfold interimTickFinish c4Cfg
    rw [if_neg (by decide)]
    try dsimp only
    rw [if_neg (by decide)]
    rw [if_neg (fun hcond => absurd hcond.2.2 (by decide))]
    try dsimp only
    rw [if_pos (by decide)]
    norm_num
  have hrun : emitRun c4Cfg c4Trace initEmit =
      { seq := 1, interimSeq := 1, suppressUntil := 113 / 10,
        lastFinalText := "alpha".toList, lastFinalTime := 101 / 10,
        lastInterimText := "x".toList, lastInterimLen := 1, interimInFlight := false,
        stdoutLines := ["alpha".toList],
        sent := [{ isInterim := false, seq := 1, tstamp := 101 / 10,
                   text := "alpha".toList },
                 { isInterim := true, seq := 1, tstamp := 102 / 10,
                   text := "x".toList }] } := by
    unfold c4Trace
    simp only [emitRun]
    rw [h1, h2, h3]
  rw [hrun]
  refine ⟨rfl, rfl, by norm_num, ?_⟩
  rw [hmax]
  norm_num

end MicStream
